import Mathlib

/-!
Shallow embedding of the `xapiary` repository (the `mdq` binary, `src/main.rs`),
a Markdown+frontmatter index/query tool built on the xapian engine.

The embedding models `main` as a pure function from an abstract `World`
(file-system trees reachable from the top-level input paths, the user's home
directory, the initial `RUST_LIB_BACKTRACE` value, and whether the database
opens succeed) and the parsed CLI arguments to a trace of observable actions
(environment writes, index opens, per-file index writes, stderr reports,
commits, session launch) paired with an optional error that aborts `main`.

External collaborators that live outside this repository (the xapian engine,
`Document::parse_file` from the `markdown_query` crate, the `interactive`
module) are modelled at the boundary of their calls in `main.rs`: each call
becomes either an oracle bit carried by the input (parse success, write
success, open success) or an opaque trace action.
-/

namespace Xapiary

/-- One directory entry as the `update` loop of `main.rs` sees it (a `walkdir`
`DirEntry`): `id` stands for the entry's path (the document key), `name` is
`file_name().to_str()` (`none` when the name is not valid UTF-8), `ext` is
`path.extension()` (`none` when absent), `parseOk` records whether
`document::Document::parse_file(path)` returns `Ok`, and `writeOk` records
whether `doc.update_index(&mut db, &mut tg)` returns `Ok`. -/
structure Entry where
  id : Nat
  name : Option String
  ext : Option String
  parseOk : Bool
  writeOk : Bool
deriving DecidableEq, Repr

mutual
/-- A directory tree rooted at one entry, as traversed by `WalkDir`. -/
inductive FsTree : Type where
  | node : Entry → FsForest → FsTree

/-- The list of children of a directory (a file has an empty forest). -/
inductive FsForest : Type where
  | fnil : FsForest
  | fcons : FsTree → FsForest → FsForest
end

/-- Rust's `s.starts_with(c)` for a `char` pattern: true when the first
character of `s` is `c`. -/
def headIsChar (c : Char) (s : String) : Bool :=
  match s.data with
  | [] => false
  | a :: _ => a == c

/-- Rust's `s.strip_prefix(c)` for a `char` pattern: `some` of the remainder
when the first character of `s` is `c`, `none` otherwise. -/
def stripChar (c : Char) (s : String) : Option String :=
  match s.data with
  | [] => none
  | a :: rest => if a == c then some (String.mk rest) else none

/-- The hidden-entry test of the `filter_entry` closure in `main.rs` lines
76-81: `e.file_name().to_str().map(|s| s.starts_with('.')).unwrap_or(false)`.
A name that is not valid UTF-8 (`none`) yields `false` (not hidden). -/
def isHidden (name : Option String) : Bool :=
  (name.map (fun s => headIsChar '.' s)).getD false

/-- The extension test of `main.rs` line 85: the entry is kept only when
`path.extension()` is present and equal to `"md"` (the code skips the entry
when `path.extension().is_none() || path.extension().unwrap() != "md"`). -/
def extIsMd : Option String → Bool
  | none => false
  | some x => x == "md"

mutual
/-- The sequence of entries yielded by
`WalkDir::new(path).into_iter().filter_entry(|e| !hidden(e))` on a tree:
pre-order, and an entry whose name is hidden is skipped together with its
whole subtree (I/O errors of the walker are not modelled). -/
def walk : FsTree → List Entry
  | FsTree.node e cs => if isHidden e.name then [] else e :: walkForest cs

/-- Walk of a list of sibling subtrees, in order. -/
def walkForest : FsForest → List Entry
  | FsForest.fnil => []
  | FsForest.fcons t ts => walk t ++ walkForest ts
end

/-- An observable action of one `mdq` invocation, in program order. -/
inductive Action where
  | setBacktrace : String → Action
  | installColorEyre : Action
  | setupPanic : Action
  | openWritable : String → Action
  | openReadOnly : String → Action
  | indexed : Nat → Action
  | stdoutIndexed : Nat → Action
  | stderrParseFail : Nat → Action
  | committed : Action
  | startSession : Nat → String → String → Action
deriving DecidableEq, Repr

/-- An abort of `main`: the `expect` panic when the writable database cannot
be opened, the `?` on `doc.update_index`, the `?` on `db.commit()`, or the
`?` on `Database::new_with_path`. -/
inductive MainError where
  | fatalOpenWritable : MainError
  | writeFailed : Nat → MainError
  | commitFailed : MainError
  | readOpenFailed : MainError
deriving DecidableEq, Repr

/-- The body of the `for entry in walker` loop of `main.rs` lines 76-100 over
the (already filtered) entry sequence: a non-`md` entry is skipped
(`continue`), a parse failure prints to stderr and continues, a successful
parse is indexed (echoed to stdout when `verbosity > 0`), and a failing
`update_index` propagates out through `?`, ending the whole invocation. -/
def runEntries (verbosity : Nat) : List Entry → List Action × Option MainError
  | [] => ([], none)
  | e :: es =>
    if extIsMd e.ext = false then runEntries verbosity es
    else if e.parseOk then
      if e.writeOk then
        let r := runEntries verbosity es
        (Action.indexed e.id ::
          ((if 0 < verbosity then [Action.stdoutIndexed e.id] else []) ++ r.1),
         r.2)
      else ([], some (MainError.writeFailed e.id))
    else
      let r := runEntries verbosity es
      (Action.stderrParseFail e.id :: r.1, r.2)

/-- The `for path in paths` loop of `main.rs` lines 74-103: walk one top-level
path (paired with the outcome of that iteration's `db.commit()` call), process
its entries, then `db.commit()?` once, then move to the next path. An error
escaping the inner loop aborts before the commit and before any later path; a
failing commit aborts through `?` before any later path, and makes no
`committed` action durable. -/
def runUpdate (verbosity : Nat) : List (FsTree × Bool) → List Action × Option MainError
  | [] => ([], none)
  | (t, cOk) :: ts =>
    let r := runEntries verbosity (walk t)
    match r.2 with
    | some err => (r.1, some err)
    | none =>
      if cOk then
        let r2 := runUpdate verbosity ts
        (r.1 ++ Action.committed :: r2.1, r2.2)
      else (r.1, some MainError.commitFailed)

/-- The subcommands of `main.rs` lines 34-48. -/
inductive Subcommands where
  | update : List String → Subcommands
  | query : String → Subcommands
deriving DecidableEq, Repr

/-- The parsed CLI of `main.rs` lines 12-32; `db_path` is the user-supplied
value when present (clap's `default_value = "~/.mdq-data"` is applied in
`effectiveDbPath`). -/
structure Cli where
  verbosity : Nat
  db_path : Option String
  subcommand : Option Subcommands

/-- The environment `main` runs in: the user's home directory (if
determinable), the initial value of `RUST_LIB_BACKTRACE`, whether
`WritableDatabase::new` and `Database::new_with_path` succeed, the directory
tree rooted at each top-level input path, and whether the `db.commit()` call
issued after traversing that path succeeds. -/
structure World where
  home : Option String
  backtraceVar : Option String
  openWritableOk : Bool
  openReadOnlyOk : Bool
  lookup : String → FsTree
  commitOk : String → Bool

/-- `shellexpand::tilde`: when the input starts with `~` followed by nothing
or by `/`, the `~` is replaced by the home directory; when no home directory
is determinable, or the input does not have such a leading tilde, the input is
returned unchanged. -/
def shellexpandTilde (home : Option String) (s : String) : String :=
  match stripChar '~' s with
  | none => s
  | some rest =>
    if rest = "" || headIsChar '/' rest then
      match home with
      | some h => h ++ rest
      | none => s
    else s

/-- `main.rs` line 62 together with clap's default: the on-disk index location
is the database-path option, defaulting to `"~/.mdq-data"`, passed through
`shellexpand::tilde`. -/
def effectiveDbPath (w : World) (dbOpt : Option String) : String :=
  shellexpandTilde w.home (dbOpt.getD "~/.mdq-data")

/-- The trace of `setup()` (`main.rs` lines 50-57): set `RUST_LIB_BACKTRACE`
to `"1"` only when `std::env::var` fails (the variable is unset), then install
color-eyre. -/
def setupActions (backtraceVar : Option String) : List Action :=
  (if backtraceVar.isNone then [Action.setBacktrace "1"] else [])
    ++ [Action.installColorEyre]

/-- The value of `RUST_LIB_BACKTRACE` after `setup()` runs: `"1"` when it was
unset, the pre-existing value otherwise. -/
def envAfterSetup : Option String → Option String
  | none => some "1"
  | some v => some v

/-- `main` (`main.rs` lines 59-140): expand the database path, run `setup()`,
then dispatch on the subcommand. `Update` opens the writable database (a
failed open panics through `expect` before any traversal) and runs the update
loop. The default (no subcommand) and `Query` branches are identical: install
the panic hook, open the read-only database, and start the interactive session
with the fixed pager `"less"` and editor `"vim"`; the `Query` branch binds its
query string as `query: _` and never uses it. The `interactive::query` call
itself is outside this repository and is modelled as the single opaque
`startSession` action carrying exactly the arguments `main.rs` passes. -/
def runMain (w : World) (cli : Cli) : List Action × Option MainError :=
  let dbp := effectiveDbPath w cli.db_path
  let su := setupActions w.backtraceVar
  match cli.subcommand with
  | some (Subcommands.update paths) =>
    if w.openWritableOk then
      let r := runUpdate cli.verbosity
        (paths.map (fun p => (w.lookup p, w.commitOk p)))
      (su ++ Action.openWritable dbp :: r.1, r.2)
    else
      (su ++ [Action.openWritable dbp], some MainError.fatalOpenWritable)
  | none =>
    if w.openReadOnlyOk then
      (su ++ [Action.setupPanic, Action.openReadOnly dbp,
        Action.startSession cli.verbosity "less" "vim"], none)
    else
      (su ++ [Action.setupPanic, Action.openReadOnly dbp],
        some MainError.readOpenFailed)
  | some (Subcommands.query _) =>
    if w.openReadOnlyOk then
      (su ++ [Action.setupPanic, Action.openReadOnly dbp,
        Action.startSession cli.verbosity "less" "vim"], none)
    else
      (su ++ [Action.setupPanic, Action.openReadOnly dbp],
        some MainError.readOpenFailed)

/-- Recognizer for `setBacktrace` actions (environment writes). -/
def isSetBacktraceA : Action → Bool
  | Action.setBacktrace _ => true
  | _ => false

/-- Recognizer for the writable index open. -/
def isOpenWritableA : Action → Bool
  | Action.openWritable _ => true
  | _ => false

/-- Recognizer for the read-only index open. -/
def isOpenReadOnlyA : Action → Bool
  | Action.openReadOnly _ => true
  | _ => false

/-- Recognizer for commit actions. -/
def isCommittedA : Action → Bool
  | Action.committed => true
  | _ => false

/-- Whether the parsed CLI selects the `update` subcommand. -/
def isUpdateSub : Option Subcommands → Bool
  | some (Subcommands.update _) => true
  | _ => false

/-- Example entry: the root directory `notes` (no extension). -/
def eRoot : Entry := ⟨1, some "notes", none, false, false⟩

/-- Example entry: a note `a.md` that parses and writes successfully. -/
def eNote : Entry := ⟨2, some "a.md", some "md", true, true⟩

/-- Example entry: a non-note file `b.txt`. -/
def eTxt : Entry := ⟨3, some "b.txt", some "txt", true, true⟩

/-- Example entry: a hidden directory `.git`. -/
def eHid : Entry := ⟨4, some ".git", none, false, false⟩

/-- Example entry: a note `c.md` living under the hidden directory. -/
def eUnder : Entry := ⟨5, some "c.md", some "md", true, true⟩

/-- Example entry: a note `d.md` whose metadata fails to parse. -/
def eBadParse : Entry := ⟨6, some "d.md", some "md", false, true⟩

/-- Example entry: a note `g.md` whose index write fails. -/
def eBadWrite : Entry := ⟨7, some "g.md", some "md", true, false⟩

/-- Example entry: the root directory `diary`. -/
def eDiaryRoot : Entry := ⟨8, some "diary", none, false, false⟩

/-- Example entry: a note `f.md` that parses and writes successfully. -/
def eDiaryNote : Entry := ⟨9, some "f.md", some "md", true, true⟩

/-- Example entry: the root directory `bw`. -/
def eBwRoot : Entry := ⟨10, some "bw", none, false, false⟩

/-- Example entry: a directory entry whose name is not valid UTF-8. -/
def eNoUtf : Entry := ⟨11, none, some "md", true, true⟩

/-- Example tree: `notes` containing `a.md`, `b.txt` and `.git/c.md`. -/
def tNotes : FsTree :=
  FsTree.node eRoot
    (FsForest.fcons (FsTree.node eNote FsForest.fnil)
      (FsForest.fcons (FsTree.node eTxt FsForest.fnil)
        (FsForest.fcons
          (FsTree.node eHid
            (FsForest.fcons (FsTree.node eUnder FsForest.fnil) FsForest.fnil))
          FsForest.fnil)))

/-- Example tree: `diary` containing `f.md`. -/
def tDiary : FsTree :=
  FsTree.node eDiaryRoot
    (FsForest.fcons (FsTree.node eDiaryNote FsForest.fnil) FsForest.fnil)

/-- Example tree: `bw` containing the note whose index write fails. -/
def tBadW : FsTree :=
  FsTree.node eBwRoot
    (FsForest.fcons (FsTree.node eBadWrite FsForest.fnil) FsForest.fnil)

/-- Example world: home directory present, `RUST_LIB_BACKTRACE` unset, both
database opens succeed, every top-level path resolves to `tNotes`, every
commit succeeds. -/
def wEx : World :=
  ⟨some "/home/user", none, true, true, fun _ => tNotes, fun _ => true⟩

/-- Example world where opening the writable database fails and
`RUST_LIB_BACKTRACE` is already set. -/
def wNoOpen : World :=
  ⟨some "/home/user", some "0", false, true, fun _ => tNotes, fun _ => true⟩

/-- Example CLI: no options, no subcommand (default interactive run). -/
def cliEx : Cli := ⟨0, none, none⟩

/-- Example CLI: `update notes`. -/
def cliUp : Cli := ⟨0, none, some (Subcommands.update ["notes"])⟩

/-- Every action emitted by the entry loop is a per-file action: an index
write, a verbose stdout echo, or a stderr parse-failure report. -/
theorem runEntries_actions (v : Nat) (es : List Entry) :
    ∀ a ∈ (runEntries v es).1,
      (∃ i, a = Action.indexed i) ∨ (∃ i, a = Action.stdoutIndexed i)
        ∨ (∃ i, a = Action.stderrParseFail i) := by
  induction es with
  | nil => intro a ha; simp [runEntries] at ha
  | cons e es ih =>
    intro a ha
    rw [runEntries] at ha
    by_cases hext : extIsMd e.ext = false
    · simp only [hext, if_true] at ha
      exact ih a ha
    · simp only [hext, if_false] at ha
      by_cases hp : e.parseOk
      · by_cases hw : e.writeOk
        · simp only [hp, hw, if_true] at ha
          rcases List.mem_cons.mp ha with h | h
          · exact Or.inl ⟨e.id, h⟩
          · rcases List.mem_append.mp h with h | h
            · by_cases hv : 0 < v
              · simp only [hv, if_true, List.mem_singleton] at h
                exact Or.inr (Or.inl ⟨e.id, h⟩)
              · simp [hv] at h
            · exact ih a h
        · simp only [hp, hw, if_true, if_false] at ha
          simp at ha
      · simp only [hp, if_false] at ha
        rcases List.mem_cons.mp ha with h | h
        · exact Or.inr (Or.inr ⟨e.id, h⟩)
        · exact ih a h

/-- Every action emitted by the update loop is a per-file action or a commit. -/
theorem runUpdate_actions (v : Nat) (ts : List (FsTree × Bool)) :
    ∀ a ∈ (runUpdate v ts).1,
      (∃ i, a = Action.indexed i) ∨ (∃ i, a = Action.stdoutIndexed i)
        ∨ (∃ i, a = Action.stderrParseFail i) ∨ a = Action.committed := by
  induction ts with
  | nil => intro a ha; simp [runUpdate] at ha
  | cons tc ts ih =>
    rcases tc with ⟨t, cOk⟩
    intro a ha
    rw [runUpdate] at ha
    rcases hr : (runEntries v (walk t)).2 with _ | err
    · simp only [hr] at ha
      rcases hc : cOk with _ | _
      · simp only [hc, Bool.false_eq_true, if_false] at ha
        rcases runEntries_actions v (walk t) a ha with h | h | h
        · exact Or.inl h
        · exact Or.inr (Or.inl h)
        · exact Or.inr (Or.inr (Or.inl h))
      · simp only [hc, if_true] at ha
        rcases List.mem_append.mp ha with h | h
        · rcases runEntries_actions v (walk t) a h with h | h | h
          · exact Or.inl h
          · exact Or.inr (Or.inl h)
          · exact Or.inr (Or.inr (Or.inl h))
        · rcases List.mem_cons.mp h with h | h
          · exact Or.inr (Or.inr (Or.inr h))
          · exact ih a h
    · simp only [hr] at ha
      rcases runEntries_actions v (walk t) a ha with h | h | h
      · exact Or.inl h
      · exact Or.inr (Or.inl h)
      · exact Or.inr (Or.inr (Or.inl h))

mutual
/-- Every entry yielded by a filtered walk is non-hidden. -/
theorem walk_not_hidden (t : FsTree) : ∀ e ∈ walk t, isHidden e.name = false := by
  match t with
  | FsTree.node e0 cs =>
    intro e he
    rw [walk] at he
    by_cases h : isHidden e0.name
    · simp [h] at he
    · simp only [h, if_false] at he
      rcases List.mem_cons.mp he with h1 | h1
      · subst h1; simpa using h
      · exact walkForest_not_hidden cs e h1

/-- Every entry yielded by a filtered walk of a forest is non-hidden. -/
theorem walkForest_not_hidden (ts : FsForest) :
    ∀ e ∈ walkForest ts, isHidden e.name = false := by
  match ts with
  | FsForest.fnil => intro e he; simp [walkForest] at he
  | FsForest.fcons t ts =>
    intro e he
    rw [walkForest] at he
    rcases List.mem_append.mp he with h | h
    · exact walk_not_hidden t e h
    · exact walkForest_not_hidden ts e h
end

/-- When every `md`-extension entry of the batch parses and writes
successfully, the entry loop finishes without an error. -/
theorem runEntries_err_none (v : Nat) (es : List Entry)
    (h : ∀ e ∈ es, extIsMd e.ext = true → e.parseOk = true → e.writeOk = true) :
    (runEntries v es).2 = none := by
  induction es with
  | nil => simp [runEntries]
  | cons e es ih =>
    have ht : ∀ e' ∈ es, extIsMd e'.ext = true → e'.parseOk = true →
        e'.writeOk = true := fun e' he' => h e' (List.mem_cons_of_mem e he')
    rw [runEntries]
    by_cases hext : extIsMd e.ext = false
    · simp only [hext, if_true]; exact ih ht
    · have hext' : extIsMd e.ext = true := by
        cases hx : extIsMd e.ext
        · exact absurd hx hext
        · rfl
      simp only [hext, if_false]
      by_cases hp : e.parseOk
      · have hw : e.writeOk = true := h e (List.mem_cons_self e es) hext' hp
        simp only [hp, hw, if_true]
        exact ih ht
      · simp only [hp, if_false]
        exact ih ht

/-- Only an entry that survived the extension filter, parsed successfully and
wrote successfully can appear as an `indexed` action of the entry loop. -/
theorem indexed_mem_runEntries (v : Nat) (es : List Entry) (i : Nat)
    (h : Action.indexed i ∈ (runEntries v es).1) :
    ∃ e, e ∈ es ∧ e.id = i ∧ extIsMd e.ext = true ∧ e.parseOk = true
      ∧ e.writeOk = true := by
  induction es with
  | nil => simp [runEntries] at h
  | cons e es ih =>
    rw [runEntries] at h
    by_cases hext : extIsMd e.ext = false
    · simp only [hext, if_true] at h
      rcases ih h with ⟨e', he', rest⟩
      exact ⟨e', List.mem_cons_of_mem e he', rest⟩
    · have hext' : extIsMd e.ext = true := by
        cases hx : extIsMd e.ext
        · exact absurd hx hext
        · rfl
      simp only [hext, if_false] at h
      by_cases hp : e.parseOk
      · by_cases hw : e.writeOk
        · simp only [hp, hw, if_true] at h
          rcases List.mem_cons.mp h with h1 | h1
          · exact ⟨e, List.mem_cons_self e es, (Action.indexed.injEq _ _).mp h1.symm, hext', hp, hw⟩
          · rcases List.mem_append.mp h1 with h2 | h2
            · by_cases hv : 0 < v
              · simp [hv] at h2
              · simp [hv] at h2
            · rcases ih h2 with ⟨e', he', rest⟩
              exact ⟨e', List.mem_cons_of_mem e he', rest⟩
        · simp only [hp, hw, if_true, if_false] at h
          simp at h
      · simp only [hp, if_false] at h
        rcases List.mem_cons.mp h with h1 | h1
        · exact absurd h1 (by simp)
        · rcases ih h1 with ⟨e', he', rest⟩
          exact ⟨e', List.mem_cons_of_mem e he', rest⟩

/-- The entry loop never commits. -/
theorem committed_not_mem_runEntries (v : Nat) (es : List Entry) :
    Action.committed ∉ (runEntries v es).1 := by
  intro h
  rcases runEntries_actions v es Action.committed h with ⟨i, hi⟩ | ⟨i, hi⟩ | ⟨i, hi⟩ <;>
    exact Action.noConfusion hi

/-- The entry loop opens no database handle and writes no environment
variable: `countP` of each such recognizer is zero. -/
theorem runEntries_countP_zero (v : Nat) (es : List Entry) :
    (runEntries v es).1.countP isOpenWritableA = 0
    ∧ (runEntries v es).1.countP isOpenReadOnlyA = 0
    ∧ (runEntries v es).1.countP isSetBacktraceA = 0 := by
  refine ⟨?_, ?_, ?_⟩ <;>
  · rw [List.countP_eq_zero]
    intro a ha
    rcases runEntries_actions v es a ha with ⟨i, hi⟩ | ⟨i, hi⟩ | ⟨i, hi⟩ <;>
      subst hi <;> simp [isOpenWritableA, isOpenReadOnlyA, isSetBacktraceA]

/-- The update loop opens no database handle and writes no environment
variable. -/
theorem runUpdate_countP_zero (v : Nat) (ts : List (FsTree × Bool)) :
    (runUpdate v ts).1.countP isOpenWritableA = 0
    ∧ (runUpdate v ts).1.countP isOpenReadOnlyA = 0
    ∧ (runUpdate v ts).1.countP isSetBacktraceA = 0 := by
  refine ⟨?_, ?_, ?_⟩ <;>
  · rw [List.countP_eq_zero]
    intro a ha
    rcases runUpdate_actions v ts a ha with ⟨i, hi⟩ | ⟨i, hi⟩ | ⟨i, hi⟩ | hi <;>
      subst hi <;> simp [isOpenWritableA, isOpenReadOnlyA, isSetBacktraceA]

/-- `setup()` emits only the conditional environment write and the color-eyre
install. -/
theorem setupActions_mem (bv : Option String) :
    ∀ a ∈ setupActions bv,
      a = Action.setBacktrace "1" ∨ a = Action.installColorEyre := by
  intro a ha
  cases bv <;> simp [setupActions] at ha <;> tauto

/-- `setup()` opens no database handle, and its only environment write is the
conditional one. -/
theorem setupActions_countP (bv : Option String) :
    (setupActions bv).countP isOpenWritableA = 0
    ∧ (setupActions bv).countP isOpenReadOnlyA = 0
    ∧ (setupActions bv).countP isSetBacktraceA = (if bv.isNone then 1 else 0) := by
  cases bv <;>
    simp [setupActions, List.countP_cons, isOpenWritableA, isOpenReadOnlyA,
      isSetBacktraceA]

/-- C2: an entry contributes a document to the index batch only if its file
name does not start with the hidden-entry marker `.` and its path has the note
extension `md`; a hidden entry is skipped together with everything beneath it,
every entry the walker yields is non-hidden, and a file with a missing or
different extension contributes nothing to the batch. -/
theorem update_traversal_filter (v : Nat) (t : FsTree) :
    (∀ e cs, isHidden e.name = true → walk (FsTree.node e cs) = [])
    ∧ (∀ e ∈ walk t, isHidden e.name = false)
    ∧ (∀ e es, extIsMd e.ext = false → runEntries v (e :: es) = runEntries v es)
    ∧ (∀ i, Action.indexed i ∈ (runEntries v (walk t)).1 →
        ∃ e, e ∈ walk t ∧ e.id = i ∧ extIsMd e.ext = true
          ∧ isHidden e.name = false ∧ e.parseOk = true) := by
  refine ⟨?_, walk_not_hidden t, ?_, ?_⟩
  · intro e cs h
    rw [walk]
    simp [h]
  · intro e es h
    rw [runEntries]
    simp [h]
  · intro i h
    rcases indexed_mem_runEntries v (walk t) i h with ⟨e, he, hid, hext, hp, _⟩
    exact ⟨e, he, hid, hext, walk_not_hidden t e he, hp⟩

/-- Witness for `update_traversal_filter`: in the example tree, the hidden
directory and its child contribute nothing, the `.txt` file contributes
nothing, and the indexed document `a.md` is a non-hidden `md` entry. -/
theorem update_traversal_filter_witness :
    (isHidden eHid.name = true ∧ walk (FsTree.node eHid FsForest.fnil) = [])
    ∧ (extIsMd eTxt.ext = false
        ∧ runEntries 0 (eTxt :: [eNote]) = runEntries 0 [eNote])
    ∧ (Action.indexed 2 ∈ (runEntries 0 (walk tNotes)).1
        ∧ ∃ e, e ∈ walk tNotes ∧ e.id = 2 ∧ extIsMd e.ext = true
            ∧ isHidden e.name = false ∧ e.parseOk = true) :=
  ⟨⟨by decide, (update_traversal_filter 0 tNotes).1 eHid FsForest.fnil (by decide)⟩,
   ⟨by decide, (update_traversal_filter 0 tNotes).2.2.1 eTxt [eNote] (by decide)⟩,
   ⟨by decide, (update_traversal_filter 0 tNotes).2.2.2 2 (by decide)⟩⟩

/-- C3: when every note file of the batch parses and writes successfully and
every per-path `db.commit()` call succeeds, the update trace is exactly, path
by path, the per-path file actions followed by a single commit; the run ends
without error, the number of commits equals the number of top-level paths, and
the per-path file actions themselves contain no commit. A failing commit
instead aborts the run through `?`: the trace ends with that path's file
actions, with no `committed` action for it and no later path traversed. -/
theorem update_commit_per_path (v : Nat) (ts : List (FsTree × Bool))
    (h : ∀ tc ∈ ts,
      (∀ e ∈ walk tc.1, extIsMd e.ext = true → e.parseOk = true →
        e.writeOk = true) ∧ tc.2 = true) :
    (runUpdate v ts).1
        = (ts.map
            (fun tc => (runEntries v (walk tc.1)).1 ++ [Action.committed])).flatten
    ∧ (runUpdate v ts).2 = none
    ∧ (runUpdate v ts).1.countP isCommittedA = ts.length
    ∧ (∀ tc ∈ ts, (runEntries v (walk tc.1)).1.countP isCommittedA = 0)
    ∧ (∀ t cOk ts', (runEntries v (walk t)).2 = none → cOk = false →
        runUpdate v ((t, cOk) :: ts')
          = ((runEntries v (walk t)).1, some MainError.commitFailed)) := by
  have hper : ∀ t : FsTree, (runEntries v (walk t)).1.countP isCommittedA = 0 := by
    intro t
    rw [List.countP_eq_zero]
    intro a ha
    rcases runEntries_actions v (walk t) a ha with ⟨i, hi⟩ | ⟨i, hi⟩ | ⟨i, hi⟩ <;>
      subst hi <;> simp [isCommittedA]
  have habort : ∀ t cOk ts', (runEntries v (walk t)).2 = none → cOk = false →
      runUpdate v ((t, cOk) :: ts')
        = ((runEntries v (walk t)).1, some MainError.commitFailed) := by
    intro t cOk ts' herr hc
    rw [runUpdate, herr, hc]
    simp
  induction ts with
  | nil =>
    exact ⟨by simp [runUpdate], by simp [runUpdate], by simp [runUpdate],
      by simp, habort⟩
  | cons tc ts ih =>
    rcases tc with ⟨t, cOk⟩
    have hhd : ∀ e ∈ walk t, extIsMd e.ext = true → e.parseOk = true →
        e.writeOk = true := (h (t, cOk) (List.mem_cons_self _ _)).1
    have hcok : cOk = true := (h (t, cOk) (List.mem_cons_self _ _)).2
    have htl : ∀ tc' ∈ ts,
        (∀ e ∈ walk tc'.1, extIsMd e.ext = true → e.parseOk = true →
          e.writeOk = true) ∧ tc'.2 = true :=
      fun tc' ht' => h tc' (List.mem_cons_of_mem _ ht')
    have herr : (runEntries v (walk t)).2 = none := runEntries_err_none v (walk t) hhd
    rcases ih htl with ⟨ih1, ih2, ih3, _, _⟩
    have htr : (runUpdate v ((t, cOk) :: ts)).1
        = (runEntries v (walk t)).1 ++ Action.committed :: (runUpdate v ts).1 := by
      rw [runUpdate, herr, hcok]
      simp
    have her : (runUpdate v ((t, cOk) :: ts)).2 = (runUpdate v ts).2 := by
      rw [runUpdate, herr, hcok]
      simp
    refine ⟨?_, by rw [her, ih2], ?_, ?_, habort⟩
    · rw [htr, ih1]
      simp
    · rw [htr, List.countP_append, List.countP_cons, hper t, ih3]
      simp [isCommittedA]
    · intro tc' _
      exact hper tc'.1

/-- Witness for `update_commit_per_path`: two clean top-level paths with
succeeding commits give a trace with the per-path actions each followed by
one commit, two commits in total and none inside the per-path actions, while
a path whose commit fails aborts the run with no commit action. -/
theorem update_commit_per_path_witness :
    (∀ tc ∈ [(tNotes, true), (tDiary, true)],
        (∀ e ∈ walk tc.1, extIsMd e.ext = true → e.parseOk = true →
          e.writeOk = true) ∧ tc.2 = true)
    ∧ (runUpdate 0 [(tNotes, true), (tDiary, true)]).1
        = (([(tNotes, true), (tDiary, true)]).map
            (fun tc => (runEntries 0 (walk tc.1)).1 ++ [Action.committed])).flatten
    ∧ (runUpdate 0 [(tNotes, true), (tDiary, true)]).2 = none
    ∧ (runUpdate 0 [(tNotes, true), (tDiary, true)]).1.countP isCommittedA
        = ([(tNotes, true), (tDiary, true)] : List (FsTree × Bool)).length
    ∧ (runEntries 0 (walk tNotes)).2 = none
    ∧ runUpdate 0 [(tDiary, false)]
        = ((runEntries 0 (walk tDiary)).1, some MainError.commitFailed) :=
  ⟨by decide,
   (update_commit_per_path 0 [(tNotes, true), (tDiary, true)] (by decide)).1,
   (update_commit_per_path 0 [(tNotes, true), (tDiary, true)] (by decide)).2.1,
   (update_commit_per_path 0 [(tNotes, true), (tDiary, true)] (by decide)).2.2.1,
   by decide,
   (update_commit_per_path 0 [(tNotes, true), (tDiary, true)]
      (by decide)).2.2.2.2 tDiary false [] (by decide) rfl⟩

/-- C4: a note file whose metadata parsing fails produces a stderr report and
the batch continues unchanged on the remaining files (later files are still
indexed and the run is not aborted), while a failure of the index write path
empties the rest of the batch and propagates as an error, which also aborts
the per-path loop before its commit and before any later path. -/
theorem update_continue_on_parse_error (v : Nat) (e : Entry) (es : List Entry)
    (hext : extIsMd e.ext = true) :
    (e.parseOk = false →
        runEntries v (e :: es)
          = (Action.stderrParseFail e.id :: (runEntries v es).1,
             (runEntries v es).2))
    ∧ (e.parseOk = false → ∀ j, Action.indexed j ∈ (runEntries v es).1 →
        Action.indexed j ∈ (runEntries v (e :: es)).1)
    ∧ (e.parseOk = true → e.writeOk = false →
        runEntries v (e :: es) = ([], some (MainError.writeFailed e.id)))
    ∧ (∀ t cOk ts err, (runEntries v (walk t)).2 = some err →
        runUpdate v ((t, cOk) :: ts) = ((runEntries v (walk t)).1, some err)) := by
  have hne : ¬ extIsMd e.ext = false := by simp [hext]
  refine ⟨?_, ?_, ?_, ?_⟩
  · intro hp
    rw [runEntries]
    simp [hne, hp]
  · intro hp j hj
    rw [runEntries]
    simp only [hne, if_false, hp]
    exact List.mem_cons_of_mem _ hj
  · intro hp hw
    rw [runEntries]
    simp [hne, hp, hw]
  · intro t cOk ts err herr
    rw [runUpdate, herr]

/-- Witness for `update_continue_on_parse_error`: the parse-failing `d.md`
yields a stderr report while the following `a.md` is still indexed, the
write-failing `g.md` aborts the batch, and a path containing it aborts the
update before its commit. -/
theorem update_continue_on_parse_error_witness :
    (extIsMd eBadParse.ext = true ∧ eBadParse.parseOk = false
      ∧ runEntries 0 (eBadParse :: [eNote])
          = (Action.stderrParseFail eBadParse.id :: (runEntries 0 [eNote]).1,
             (runEntries 0 [eNote]).2)
      ∧ Action.indexed 2 ∈ (runEntries 0 (eBadParse :: [eNote])).1)
    ∧ (extIsMd eBadWrite.ext = true ∧ eBadWrite.parseOk = true
      ∧ eBadWrite.writeOk = false
      ∧ runEntries 0 (eBadWrite :: [eNote])
          = ([], some (MainError.writeFailed eBadWrite.id)))
    ∧ ((runEntries 0 (walk tBadW)).2 = some (MainError.writeFailed eBadWrite.id)
      ∧ runUpdate 0 ((tBadW, true) :: [(tDiary, true)])
          = ((runEntries 0 (walk tBadW)).1,
             some (MainError.writeFailed eBadWrite.id))) :=
  ⟨⟨by decide, by decide,
    (update_continue_on_parse_error 0 eBadParse [eNote] (by decide)).1 (by decide),
    (update_continue_on_parse_error 0 eBadParse [eNote] (by decide)).2.1
      (by decide) 2 (by decide)⟩,
   ⟨by decide, by decide, by decide,
    (update_continue_on_parse_error 0 eBadWrite [eNote] (by decide)).2.2.1
      (by decide) (by decide)⟩,
   ⟨by decide,
    (update_continue_on_parse_error 0 eBadWrite [eNote] (by decide)).2.2.2
      tBadW true [(tDiary, true)] (MainError.writeFailed eBadWrite.id)
      (by decide)⟩⟩

/-- C5: when opening the writable database fails in `update` mode, `main`
ends fatally right after the open attempt: the whole trace is the `setup()`
actions followed by the single open attempt, and no file is indexed and no
commit is issued. -/
theorem update_fatal_open (w : World) (cli : Cli) (paths : List String)
    (hsub : cli.subcommand = some (Subcommands.update paths))
    (hopen : w.openWritableOk = false) :
    runMain w cli
      = (setupActions w.backtraceVar
          ++ [Action.openWritable (effectiveDbPath w cli.db_path)],
         some MainError.fatalOpenWritable)
    ∧ (∀ i, Action.indexed i ∉ (runMain w cli).1)
    ∧ Action.committed ∉ (runMain w cli).1 := by
  have htr : runMain w cli
      = (setupActions w.backtraceVar
          ++ [Action.openWritable (effectiveDbPath w cli.db_path)],
         some MainError.fatalOpenWritable) := by
    rw [runMain, hsub]
    simp [hopen]
  refine ⟨htr, ?_, ?_⟩
  · intro i hi
    rw [htr] at hi
    rcases List.mem_append.mp hi with h | h
    · rcases setupActions_mem w.backtraceVar _ h with h1 | h1 <;>
        exact Action.noConfusion h1
    · rcases List.mem_singleton.mp h with h1
      exact Action.noConfusion h1
  · intro hi
    rw [htr] at hi
    rcases List.mem_append.mp hi with h | h
    · rcases setupActions_mem w.backtraceVar _ h with h1 | h1 <;>
        exact Action.noConfusion h1
    · rcases List.mem_singleton.mp h with h1
      exact Action.noConfusion h1

/-- Witness for `update_fatal_open`: `update notes` against a world where the
writable open fails produces only the setup actions and the open attempt. -/
theorem update_fatal_open_witness :
    cliUp.subcommand = some (Subcommands.update ["notes"])
    ∧ wNoOpen.openWritableOk = false
    ∧ runMain wNoOpen cliUp
        = (setupActions wNoOpen.backtraceVar
            ++ [Action.openWritable (effectiveDbPath wNoOpen cliUp.db_path)],
           some MainError.fatalOpenWritable)
    ∧ Action.indexed 2 ∉ (runMain wNoOpen cliUp).1
    ∧ Action.committed ∉ (runMain wNoOpen cliUp).1 :=
  ⟨rfl, rfl,
   (update_fatal_open wNoOpen cliUp ["notes"] rfl rfl).1,
   (update_fatal_open wNoOpen cliUp ["notes"] rfl rfl).2.1 2,
   (update_fatal_open wNoOpen cliUp ["notes"] rfl rfl).2.2⟩

/-- C6: each invocation opens exactly one handle mode: the `update`
subcommand opens the writable handle once and never the read-only one, while
the default and `query` invocations open the read-only handle once and never
the writable one; in particular no invocation ever opens both. -/
theorem one_handle_mode (w : World) (cli : Cli) :
    (runMain w cli).1.countP isOpenWritableA
        = (if isUpdateSub cli.subcommand then 1 else 0)
    ∧ (runMain w cli).1.countP isOpenReadOnlyA
        = (if isUpdateSub cli.subcommand then 0 else 1)
    ∧ ((runMain w cli).1.countP isOpenWritableA = 0
        ∨ (runMain w cli).1.countP isOpenReadOnlyA = 0) := by
  have hsu := setupActions_countP w.backtraceVar
  rcases hsub : cli.subcommand with _ | sc
  · by_cases h : w.openReadOnlyOk <;>
      refine ⟨?_, ?_, ?_⟩ <;>
      simp [runMain, hsub, h, isUpdateSub, List.countP_append, List.countP_cons,
        hsu.1, hsu.2.1, isOpenWritableA, isOpenReadOnlyA]
  · rcases sc with paths | q
    · have hup := runUpdate_countP_zero cli.verbosity (paths.map (fun p => (w.lookup p, w.commitOk p)))
      by_cases h : w.openWritableOk <;>
        refine ⟨?_, ?_, ?_⟩ <;>
        simp [runMain, hsub, h, isUpdateSub, List.countP_append, List.countP_cons,
          hsu.1, hsu.2.1, hup.1, hup.2.1, isOpenWritableA, isOpenReadOnlyA]
    · by_cases h : w.openReadOnlyOk <;>
        refine ⟨?_, ?_, ?_⟩ <;>
        simp [runMain, hsub, h, isUpdateSub, List.countP_append, List.countP_cons,
          hsu.1, hsu.2.1, isOpenWritableA, isOpenReadOnlyA]

/-- `setup()` opens no database handle and starts no session. -/
theorem setupActions_no_open (bv : Option String) :
    (∀ p, Action.openWritable p ∉ setupActions bv)
    ∧ (∀ p, Action.openReadOnly p ∉ setupActions bv)
    ∧ (∀ vb pg ed, Action.startSession vb pg ed ∉ setupActions bv) := by
  refine ⟨fun p h => ?_, fun p h => ?_, fun vb pg ed h => ?_⟩ <;>
  · rcases setupActions_mem bv _ h with h1 | h1 <;> exact Action.noConfusion h1

/-- The update loop opens no database handle and starts no session. -/
theorem runUpdate_no_open (v : Nat) (ts : List (FsTree × Bool)) :
    (∀ p, Action.openWritable p ∉ (runUpdate v ts).1)
    ∧ (∀ p, Action.openReadOnly p ∉ (runUpdate v ts).1)
    ∧ (∀ vb pg ed, Action.startSession vb pg ed ∉ (runUpdate v ts).1) := by
  refine ⟨fun p h => ?_, fun p h => ?_, fun vb pg ed h => ?_⟩ <;>
  · rcases runUpdate_actions v ts _ h with ⟨i, hi⟩ | ⟨i, hi⟩ | ⟨i, hi⟩ | hi <;>
      exact Action.noConfusion hi

/-- C7: the index location is the database-path option, defaulting to
`~/.mdq-data`; a leading tilde (alone or followed by `/`) is expanded to the
home directory, any other supplied value is used as given, and every database
open of the invocation uses exactly this resolved path. -/
theorem db_path_resolution (w : World) (cli : Cli) (hm : String)
    (hh : w.home = some hm) :
    (cli.db_path = none → effectiveDbPath w cli.db_path = hm ++ "/.mdq-data")
    ∧ (∀ s rest, cli.db_path = some s → stripChar '~' s = some rest →
        (rest = "" ∨ headIsChar '/' rest = true) →
        effectiveDbPath w cli.db_path = hm ++ rest)
    ∧ (∀ s, cli.db_path = some s → stripChar '~' s = none →
        effectiveDbPath w cli.db_path = s)
    ∧ (∀ p, Action.openWritable p ∈ (runMain w cli).1
          ∨ Action.openReadOnly p ∈ (runMain w cli).1 →
        p = effectiveDbPath w cli.db_path) := by
  refine ⟨?_, ?_, ?_, ?_⟩
  · intro h
    rw [h]
    show shellexpandTilde w.home "~/.mdq-data" = hm ++ "/.mdq-data"
    rw [hh]
    rfl
  · intro s rest hs hstrip hcond
    rw [hs]
    show shellexpandTilde w.home s = hm ++ rest
    rw [hh, shellexpandTilde, hstrip]
    rcases hcond with h | h
    · simp [h]
    · simp [h]
  · intro s hs hstrip
    rw [hs]
    show shellexpandTilde w.home s = s
    rw [shellexpandTilde, hstrip]
  · intro p hp
    rcases hsub : cli.subcommand with _ | sc
    · by_cases h : w.openReadOnlyOk = true
      · simp only [runMain, hsub, h, if_true] at hp
        rcases hp with hp | hp
        · rcases List.mem_append.mp hp with h1 | h1
          · exact absurd h1 ((setupActions_no_open _).1 p)
          · simp at h1
        · rcases List.mem_append.mp hp with h1 | h1
          · exact absurd h1 ((setupActions_no_open _).2.1 p)
          · simp at h1
            exact h1
      · simp only [runMain, hsub, h, if_false] at hp
        rcases hp with hp | hp
        · rcases List.mem_append.mp hp with h1 | h1
          · exact absurd h1 ((setupActions_no_open _).1 p)
          · simp at h1
        · rcases List.mem_append.mp hp with h1 | h1
          · exact absurd h1 ((setupActions_no_open _).2.1 p)
          · simp at h1
            exact h1
    · rcases sc with paths | q
      · by_cases h : w.openWritableOk = true
        · simp only [runMain, hsub, h, if_true] at hp
          rcases hp with hp | hp
          · rcases List.mem_append.mp hp with h1 | h1
            · exact absurd h1 ((setupActions_no_open _).1 p)
            · rcases List.mem_cons.mp h1 with h2 | h2
              · exact ((Action.openWritable.injEq _ _).mp h2)
              · exact absurd h2
                  ((runUpdate_no_open cli.verbosity (paths.map (fun p => (w.lookup p, w.commitOk p)))).1 p)
          · rcases List.mem_append.mp hp with h1 | h1
            · exact absurd h1 ((setupActions_no_open _).2.1 p)
            · rcases List.mem_cons.mp h1 with h2 | h2
              · exact Action.noConfusion h2
              · exact absurd h2
                  ((runUpdate_no_open cli.verbosity (paths.map (fun p => (w.lookup p, w.commitOk p)))).2.1 p)
        · simp only [runMain, hsub, h, if_false] at hp
          rcases hp with hp | hp
          · rcases List.mem_append.mp hp with h1 | h1
            · exact absurd h1 ((setupActions_no_open _).1 p)
            · simp at h1
              exact h1
          · rcases List.mem_append.mp hp with h1 | h1
            · exact absurd h1 ((setupActions_no_open _).2.1 p)
            · simp at h1
      · by_cases h : w.openReadOnlyOk = true
        · simp only [runMain, hsub, h, if_true] at hp
          rcases hp with hp | hp
          · rcases List.mem_append.mp hp with h1 | h1
            · exact absurd h1 ((setupActions_no_open _).1 p)
            · simp at h1
          · rcases List.mem_append.mp hp with h1 | h1
            · exact absurd h1 ((setupActions_no_open _).2.1 p)
            · simp at h1
              exact h1
        · simp only [runMain, hsub, h, if_false] at hp
          rcases hp with hp | hp
          · rcases List.mem_append.mp hp with h1 | h1
            · exact absurd h1 ((setupActions_no_open _).1 p)
            · simp at h1
          · rcases List.mem_append.mp hp with h1 | h1
            · exact absurd h1 ((setupActions_no_open _).2.1 p)
            · simp at h1
              exact h1

/-- Witness for `db_path_resolution`: the default resolves to
`/home/user/.mdq-data`, a tilde-prefixed option is expanded, and an absolute
option is used verbatim. -/
theorem db_path_resolution_witness :
    wEx.home = some "/home/user"
    ∧ effectiveDbPath wEx none = "/home/user" ++ "/.mdq-data"
    ∧ effectiveDbPath wEx (some "~/notes-db") = "/home/user" ++ "/notes-db"
    ∧ effectiveDbPath wEx (some "/abs/db") = "/abs/db" :=
  ⟨rfl,
   (db_path_resolution wEx ⟨0, none, none⟩ "/home/user" rfl).1 rfl,
   (db_path_resolution wEx ⟨0, some "~/notes-db", none⟩ "/home/user" rfl).2.1
     "~/notes-db" "/notes-db" rfl (by decide) (Or.inr (by decide)),
   (db_path_resolution wEx ⟨0, some "/abs/db", none⟩ "/home/user" rfl).2.2.1
     "/abs/db" rfl (by decide)⟩

/-- C8: `setup()` sets `RUST_LIB_BACKTRACE` to `"1"` exactly when the
variable is unset and leaves a pre-existing value unchanged; across the whole
invocation this conditional write is the only environment write of the trace,
and when it happens it is the very first action, before any open, traversal or
session. -/
theorem backtrace_env_init (w : World) (cli : Cli) :
    (w.backtraceVar = none → envAfterSetup w.backtraceVar = some "1")
    ∧ (∀ v, w.backtraceVar = some v → envAfterSetup w.backtraceVar = some v)
    ∧ (runMain w cli).1.countP isSetBacktraceA
        = (if w.backtraceVar.isNone then 1 else 0)
    ∧ (w.backtraceVar = none →
        (runMain w cli).1.head? = some (Action.setBacktrace "1")) := by
  refine ⟨?_, ?_, ?_, ?_⟩
  · intro h; rw [h]; rfl
  · intro v h; rw [h]; rfl
  · have hsu := (setupActions_countP w.backtraceVar).2.2
    rcases hsub : cli.subcommand with _ | sc
    · by_cases h : w.openReadOnlyOk = true <;>
        simp [runMain, hsub, h, List.countP_append, List.countP_cons, hsu,
          isSetBacktraceA]
    · rcases sc with paths | q
      · have hup := (runUpdate_countP_zero cli.verbosity (paths.map (fun p => (w.lookup p, w.commitOk p)))).2.2
        by_cases h : w.openWritableOk = true <;>
          simp [runMain, hsub, h, List.countP_append, List.countP_cons, hsu, hup,
            isSetBacktraceA]
      · by_cases h : w.openReadOnlyOk = true <;>
          simp [runMain, hsub, h, List.countP_append, List.countP_cons, hsu,
            isSetBacktraceA]
  · intro hbv
    have hsu : setupActions w.backtraceVar
        = Action.setBacktrace "1" :: [Action.installColorEyre] := by
      simp [setupActions, hbv]
    rcases hsub : cli.subcommand with _ | sc
    · by_cases h : w.openReadOnlyOk = true <;> simp [runMain, hsub, h, hsu]
    · rcases sc with paths | q
      · by_cases h : w.openWritableOk = true <;> simp [runMain, hsub, h, hsu]
      · by_cases h : w.openReadOnlyOk = true <;> simp [runMain, hsub, h, hsu]

/-- Witness for `backtrace_env_init`: with the variable unset, the default
invocation writes `"1"` once, as its first action. -/
theorem backtrace_env_init_witness :
    wEx.backtraceVar = none
    ∧ envAfterSetup wEx.backtraceVar = some "1"
    ∧ (runMain wEx cliEx).1.countP isSetBacktraceA
        = (if wEx.backtraceVar.isNone then 1 else 0)
    ∧ (runMain wEx cliEx).1.head? = some (Action.setBacktrace "1") :=
  ⟨rfl, (backtrace_env_init wEx cliEx).1 rfl,
   (backtrace_env_init wEx cliEx).2.2.1,
   (backtrace_env_init wEx cliEx).2.2.2 rfl⟩

/-- C9: every interactive invocation (default and `query`) starts the session
with the fixed pager `"less"` and editor `"vim"`, and every session start in
the trace carries exactly those strings and the CLI verbosity — no option or
environment input can change them. -/
theorem fixed_viewer_editor (w : World) (cli : Cli)
    (hsub : isUpdateSub cli.subcommand = false)
    (hro : w.openReadOnlyOk = true) :
    Action.startSession cli.verbosity "less" "vim" ∈ (runMain w cli).1
    ∧ (∀ vb pg ed, Action.startSession vb pg ed ∈ (runMain w cli).1 →
        pg = "less" ∧ ed = "vim" ∧ vb = cli.verbosity) := by
  rcases hs : cli.subcommand with _ | sc
  · refine ⟨by simp [runMain, hs, hro], ?_⟩
    intro vb pg ed h
    simp only [runMain, hs, hro, if_true] at h
    rcases List.mem_append.mp h with h1 | h1
    · exact absurd h1 ((setupActions_no_open _).2.2 vb pg ed)
    · simp at h1
      exact ⟨h1.2.1, h1.2.2, h1.1⟩
  · rcases sc with paths | q
    · rw [hs] at hsub
      simp [isUpdateSub] at hsub
    · refine ⟨by simp [runMain, hs, hro], ?_⟩
      intro vb pg ed h
      simp only [runMain, hs, hro, if_true] at h
      rcases List.mem_append.mp h with h1 | h1
      · exact absurd h1 ((setupActions_no_open _).2.2 vb pg ed)
      · simp at h1
        exact ⟨h1.2.1, h1.2.2, h1.1⟩

/-- Witness for `fixed_viewer_editor`: the default invocation starts the
session with `"less"` and `"vim"`. -/
theorem fixed_viewer_editor_witness :
    isUpdateSub cliEx.subcommand = false
    ∧ wEx.openReadOnlyOk = true
    ∧ Action.startSession cliEx.verbosity "less" "vim" ∈ (runMain wEx cliEx).1 :=
  ⟨rfl, rfl, (fixed_viewer_editor wEx cliEx rfl rfl).1⟩

/-- C10: a directory entry whose file name is not valid UTF-8 is never
classified as hidden — the filter's string conversion failure counts as "not
hidden" — so the entry and its children are still traversed. -/
theorem invalid_utf8_name_not_hidden (e : Entry) (cs : FsForest)
    (h : e.name = none) :
    isHidden e.name = false
    ∧ walk (FsTree.node e cs) = e :: walkForest cs := by
  have hih : isHidden e.name = false := by rw [h]; rfl
  refine ⟨hih, ?_⟩
  rw [walk, hih]
  simp

/-- Witness for `invalid_utf8_name_not_hidden`: the non-UTF-8-named example
entry is not hidden and is walked together with its children. -/
theorem invalid_utf8_name_not_hidden_witness :
    eNoUtf.name = none
    ∧ isHidden eNoUtf.name = false
    ∧ walk (FsTree.node eNoUtf FsForest.fnil)
        = eNoUtf :: walkForest FsForest.fnil :=
  ⟨rfl, (invalid_utf8_name_not_hidden eNoUtf FsForest.fnil rfl).1,
   (invalid_utf8_name_not_hidden eNoUtf FsForest.fnil rfl).2⟩

/-- C1 (code bug): the `query <string>` subcommand discards its query string.
The `Query` branch of `main` binds the string as `query: _` (with a TODO to
use it) and launches the interactive session with exactly the same arguments
as the default invocation, so for every world and CLI the `query` run is
indistinguishable from the default run: the string is not pre-seeded as the
first query. The second conjunct evaluates the concrete failing input
`query "tag:foo"`. -/
theorem query_string_discarded :
    (∀ (w : World) (vb : Nat) (dbp : Option String) (q : String),
        runMain w (Cli.mk vb dbp (some (Subcommands.query q)))
          = runMain w (Cli.mk vb dbp none))
    ∧ runMain wEx (Cli.mk 0 none (some (Subcommands.query "tag:foo")))
        = runMain wEx (Cli.mk 0 none none) := by
  have h : ∀ (w : World) (vb : Nat) (dbp : Option String) (q : String),
      runMain w (Cli.mk vb dbp (some (Subcommands.query q)))
        = runMain w (Cli.mk vb dbp none) := by
    intro w vb dbp q
    rfl
  exact ⟨h, h wEx 0 none "tag:foo"⟩

end Xapiary
